import Mathlib

/-!
Verification development for the speaker-attributed transcription pipeline
(whisperx-service/app.py). Times and sample values are modelled as rationals,
Python ints as ℤ, and the NumPy/Python list slice `xs[a:b]` with its exact
index semantics (negative indices address from the end, bounds are clamped).
External collaborators (models, filesystem, classifiers) are oracle
parameters; all orchestration and arithmetic logic is translated from the
source.
-/

namespace WhisperX

/-- Python `int(q)` on a real quantity: truncation toward zero. -/
def pyInt (q : ℚ) : ℤ := if q < 0 then ⌈q⌉ else ⌊q⌋

theorem pyInt_mono {q q' : ℚ} (h : q ≤ q') : pyInt q ≤ pyInt q' := by
  unfold pyInt
  split_ifs with h1 h2 h2
  · exact Int.ceil_le_ceil h
  · calc ⌈q⌉ ≤ ⌈(0 : ℚ)⌉ := Int.ceil_le_ceil h1.le
      _ = 0 := Int.ceil_zero
      _ ≤ ⌊q'⌋ := Int.floor_nonneg.2 (not_lt.1 h2)
  · exact absurd (lt_of_le_of_lt h h2) h1
  · exact Int.floor_le_floor h

theorem pyInt_nonneg {q : ℚ} (h : 0 ≤ q) : 0 ≤ pyInt q := by
  unfold pyInt
  rw [if_neg (not_lt.2 h)]
  exact Int.floor_nonneg.2 h

theorem pyInt_intCast (n : ℤ) : pyInt ((n : ℤ) : ℚ) = n := by
  unfold pyInt
  split_ifs <;> simp

/-- Python list slice `xs[a:b]` (step 1): negative indices count from the
end, and both effective endpoints are clamped into `[0, len]`. -/
def pySlice (xs : List ℚ) (a b : ℤ) : List ℚ :=
  let n : ℤ := xs.length
  let a' : ℤ := if a < 0 then max (n + a) 0 else min a n
  let b' : ℤ := if b < 0 then max (n + b) 0 else min b n
  (xs.drop a'.toNat).take (b' - a').toNat

theorem pySlice_length_le_length (xs : List ℚ) (a b : ℤ) :
    (pySlice xs a b).length ≤ xs.length := by
  unfold pySlice
  simp only [List.length_take, List.length_drop]
  omega

theorem pySlice_length_le_sub {xs : List ℚ} {a b : ℤ} (hab : a ≤ b)
    (hb : b ≤ (xs.length : ℤ)) : ((pySlice xs a b).length : ℤ) ≤ b - a := by
  unfold pySlice
  simp only [List.length_take, List.length_drop]
  split_ifs with h1 h2 h2 <;> omega

/-- Slice of a list with nonnegative in-range bounds is exact. -/
theorem pySlice_length_eq {xs : List ℚ} {a b : ℤ} (ha : 0 ≤ a) (hab : a ≤ b)
    (hb : b ≤ (xs.length : ℤ)) : ((pySlice xs a b).length : ℤ) = b - a := by
  unfold pySlice
  simp only [List.length_take, List.length_drop]
  rw [if_neg (not_lt.2 ha), if_neg (not_lt.2 (le_trans ha hab))]
  omega

/-- One diarization interval as handed to the aggregator: a `start`/`end`
pair of seconds (`by_spk` rows in the source). -/
structure Iv where
  start : ℚ
  «end» : ℚ
deriving DecidableEq, Repr

/-- The interval-walking loop of `concat_speaker_audio`: walks rows in order,
skips degenerate rows, slices `full_y[a:b]` with `b` clamped to the length,
collects nonempty clips, accumulates `(b - a)/sr` into `total`, and breaks
once `total >= max_total_sec`. -/
def concatLoop (full_y : List ℚ) (sr : ℚ) (max_total_sec : ℚ) :
    List Iv → List (List ℚ) → ℚ → List (List ℚ) × ℚ
  | [], clips, total => (clips, total)
  | r :: rows, clips, total =>
    if r.«end» ≤ r.start then concatLoop full_y sr max_total_sec rows clips total
    else
      let a : ℤ := pyInt (r.start * sr)
      if (full_y.length : ℤ) ≤ a then concatLoop full_y sr max_total_sec rows clips total
      else
        let b : ℤ := min (pyInt (r.«end» * sr)) (full_y.length : ℤ)
        let clip := pySlice full_y a b
        if clip = [] then concatLoop full_y sr max_total_sec rows clips total
        else
          let total' := total + ((b - a : ℤ) : ℚ) / sr
          if max_total_sec ≤ total' then (clips ++ [clip], total')
          else concatLoop full_y sr max_total_sec rows (clips ++ [clip]) total'

/-- `concat_speaker_audio(full_y, sr, speaker_rows, min_total_sec,
max_total_sec)`. `Except.error` models the `ValueError` that
`np.concatenate` raises on an empty clip list; `.ok none` is Python `None`. -/
def concat_speaker_audio (full_y : List ℚ) (sr : ℚ) (speaker_rows : List Iv)
    (min_total_sec max_total_sec : ℚ) : Except String (Option (List ℚ)) :=
  let res := concatLoop full_y sr max_total_sec speaker_rows [] 0
  if res.2 < min_total_sec then .ok none
  else if res.1 = [] then .error "need at least one array to concatenate"
  else .ok (some res.1.flatten)

/-- Total sample count of a clip list. -/
def sumLen (clips : List (List ℚ)) : ℕ := (clips.map List.length).sum

theorem sumLen_append (clips : List (List ℚ)) (c : List ℚ) :
    sumLen (clips ++ [c]) = sumLen clips + c.length := by
  simp [sumLen]

/-- The clip the loop would cut for a single row (empty when the row is
skipped): the source's guards and slice for one `r` in `speaker_rows`. -/
def rowClip (full_y : List ℚ) (sr : ℚ) (r : Iv) : List ℚ :=
  if r.«end» ≤ r.start then []
  else
    let a : ℤ := pyInt (r.start * sr)
    if (full_y.length : ℤ) ≤ a then []
    else pySlice full_y a (min (pyInt (r.«end» * sr)) (full_y.length : ℤ))

/-- In-bounds, non-degenerate samples a speaker's interval list can supply. -/
def availSamples (full_y : List ℚ) (sr : ℚ) (rows : List Iv) : ℕ :=
  (rows.map fun r => (rowClip full_y sr r).length).sum

/-- Total available in-bounds, non-degenerate audio of a speaker, seconds. -/
def availableTotal (full_y : List ℚ) (sr : ℚ) (rows : List Iv) : ℚ :=
  (availSamples full_y sr rows : ℚ) / sr

/-- Modelled from the spec: "clip each interval to `[0, len(full_audio))`" —
the same walk as `concatLoop` but with the start index clamped at 0, used
both for the slice and for the duration accounting. -/
def concatLoopClipped (full_y : List ℚ) (sr : ℚ) (max_total_sec : ℚ) :
    List Iv → List (List ℚ) → ℚ → List (List ℚ) × ℚ
  | [], clips, total => (clips, total)
  | r :: rows, clips, total =>
    if r.«end» ≤ r.start then concatLoopClipped full_y sr max_total_sec rows clips total
    else
      let a : ℤ := max (pyInt (r.start * sr)) 0
      if (full_y.length : ℤ) ≤ a then concatLoopClipped full_y sr max_total_sec rows clips total
      else
        let b : ℤ := min (pyInt (r.«end» * sr)) (full_y.length : ℤ)
        let clip := pySlice full_y a b
        if clip = [] then concatLoopClipped full_y sr max_total_sec rows clips total
        else
          let total' := total + ((b - a : ℤ) : ℚ) / sr
          if max_total_sec ≤ total' then (clips ++ [clip], total')
          else concatLoopClipped full_y sr max_total_sec rows (clips ++ [clip]) total'

/-- Modelled from the spec: the aggregator with every interval clipped to
`[0, len(full_audio))` before slicing. -/
def concat_speaker_audio_clipped (full_y : List ℚ) (sr : ℚ) (speaker_rows : List Iv)
    (min_total_sec max_total_sec : ℚ) : Except String (Option (List ℚ)) :=
  let res := concatLoopClipped full_y sr max_total_sec speaker_rows [] 0
  if res.2 < min_total_sec then .ok none
  else if res.1 = [] then .error "need at least one array to concatenate"
  else .ok (some res.1.flatten)

theorem concatLoop_result_nil {full_y : List ℚ} {sr mx : ℚ} :
    ∀ (rows : List Iv) (clips : List (List ℚ)) (total : ℚ),
      (concatLoop full_y sr mx rows clips total).1 = [] →
      clips = [] ∧ (concatLoop full_y sr mx rows clips total).2 = total := by
  intro rows
  induction rows with
  | nil => intro clips total h; exact ⟨h, rfl⟩
  | cons r rs ih =>
    intro clips total h
    simp only [concatLoop] at h ⊢
    split_ifs at h ⊢ with h1 h2 h3 h4
    · exact ih clips total h
    · exact ih clips total h
    · exact ih clips total h
    · exact absurd h (by simp)
    · rcases ih _ _ h with ⟨hc, _⟩
      exact absurd hc (by simp)

theorem concatLoop_clips_ne_nil {full_y : List ℚ} {sr mx : ℚ} :
    ∀ (rows : List Iv) (clips : List (List ℚ)) (total : ℚ),
      (∀ x ∈ clips, x ≠ []) →
      ∀ c ∈ (concatLoop full_y sr mx rows clips total).1, c ≠ [] := by
  intro rows
  induction rows with
  | nil => intro clips total hc c hmem; exact hc c hmem
  | cons r rs ih =>
    intro clips total hc
    simp only [concatLoop]
    split_ifs with h1 h2 h3 h4
    · exact ih clips total hc
    · exact ih clips total hc
    · exact ih clips total hc
    · intro c hmem
      rcases List.mem_append.1 hmem with h | h
      · exact hc c h
      · rw [List.mem_singleton.1 h]; exact h3
    · refine ih _ _ ?_
      intro x hx
      rcases List.mem_append.1 hx with h | h
      · exact hc x h
      · rw [List.mem_singleton.1 h]; exact h3

/-- Dissection of a successful (`some`) aggregator run. -/
theorem concat_ok_some {full_y : List ℚ} {sr : ℚ} {rows : List Iv} {mn mx : ℚ}
    {buf : List ℚ}
    (h : concat_speaker_audio full_y sr rows mn mx = .ok (some buf)) :
    mn ≤ (concatLoop full_y sr mx rows [] 0).2 ∧
    (concatLoop full_y sr mx rows [] 0).1 ≠ [] ∧
    buf = (concatLoop full_y sr mx rows [] 0).1.flatten := by
  simp only [concat_speaker_audio] at h
  split_ifs at h with h1 h2
  · exact absurd (Except.ok.inj h) (by simp)
  · exact ⟨not_lt.1 h1, h2, (Option.some.inj (Except.ok.inj h)).symm⟩

/-- Dissection of an insufficient-evidence (`none`) aggregator run. -/
theorem concat_ok_none_iff {full_y : List ℚ} {sr : ℚ} {rows : List Iv} {mn mx : ℚ} :
    concat_speaker_audio full_y sr rows mn mx = .ok none ↔
    (concatLoop full_y sr mx rows [] 0).2 < mn := by
  simp only [concat_speaker_audio]
  split_ifs with h1 h2
  · simp [h1]
  · simp [h1]
  · simp [h1]

theorem availSamples_cons (full_y : List ℚ) (sr : ℚ) (r : Iv) (rs : List Iv) :
    availSamples full_y sr (r :: rs)
      = (rowClip full_y sr r).length + availSamples full_y sr rs := by
  simp [availSamples]

/-- Sample-count bound for the loop: while the cap has not been reached, the
collected samples stay below `mx * sr`; the final (cap-crossing) clip can add
at most the whole buffer once more. -/
theorem concatLoop_sumLen_lt {full_y : List ℚ} {sr mx : ℚ} (hsr : 0 < sr) :
    ∀ (rows : List Iv) (clips : List (List ℚ)) (total : ℚ),
      total < mx → (sumLen clips : ℚ) ≤ total * sr →
      (sumLen (concatLoop full_y sr mx rows clips total).1 : ℚ)
        < mx * sr + (full_y.length : ℚ) := by
  intro rows
  induction rows with
  | nil =>
    intro clips total h1 h2
    simp only [concatLoop]
    have h3 : total * sr < mx * sr := mul_lt_mul_of_pos_right h1 hsr
    have h4 : (0 : ℚ) ≤ (full_y.length : ℚ) := Nat.cast_nonneg _
    linarith
  | cons r rs ih =>
    intro clips total h1 h2
    simp only [concatLoop]
    split_ifs with hd hl hc hb
    · exact ih clips total h1 h2
    · exact ih clips total h1 h2
    · exact ih clips total h1 h2
    · -- break: the clip was appended, then the cap was seen crossed
      rw [sumLen_append]
      have hlen : ((pySlice full_y (pyInt (r.start * sr))
          (min (pyInt (r.«end» * sr)) (full_y.length : ℤ))).length : ℚ)
          ≤ (full_y.length : ℚ) :=
        Nat.cast_le.2 (pySlice_length_le_length _ _ _)
      have h3 : total * sr < mx * sr := mul_lt_mul_of_pos_right h1 hsr
      push_cast
      linarith
    · -- continue: the invariant is preserved
      set a : ℤ := pyInt (r.start * sr) with ha_def
      set b : ℤ := min (pyInt (r.«end» * sr)) (full_y.length : ℤ) with hb_def
      refine ih _ _ (not_le.1 hb) ?_
      rw [sumLen_append]
      have hab : a ≤ b := by
        have h5 : r.start * sr ≤ r.«end» * sr :=
          mul_le_mul_of_nonneg_right (le_of_lt (not_le.1 hd)) hsr.le
        exact le_min (pyInt_mono h5) (le_of_lt (not_le.1 hl))
      have hble : b ≤ (full_y.length : ℤ) := min_le_right _ _
      have hlen : ((pySlice full_y a b).length : ℤ) ≤ b - a :=
        pySlice_length_le_sub hab hble
      have hq : ((pySlice full_y a b).length : ℚ) ≤ ((b - a : ℤ) : ℚ) := by
        exact_mod_cast hlen
      have hmul : (total + ((b - a : ℤ) : ℚ) / sr) * sr
          = total * sr + ((b - a : ℤ) : ℚ) := by
        field_simp
      rw [hmul]
      push_cast
      push_cast at h2 hq
      linarith

/-- Exact sample accounting of the loop when every start is nonnegative: the
collected samples equal the tracked duration times `sr`, the tracked duration
never exceeds the available audio, and it falls short of the available audio
only when the loop broke at the cap. -/
theorem concatLoop_exact {full_y : List ℚ} {sr mx : ℚ} (hsr : 0 < sr) :
    ∀ (rows : List Iv) (clips : List (List ℚ)) (total : ℚ),
      (∀ r ∈ rows, 0 ≤ r.start) →
      (sumLen (concatLoop full_y sr mx rows clips total).1 : ℚ)
          = (sumLen clips : ℚ)
            + ((concatLoop full_y sr mx rows clips total).2 - total) * sr
      ∧ (concatLoop full_y sr mx rows clips total).2
          ≤ total + (availSamples full_y sr rows : ℚ) / sr
      ∧ ((concatLoop full_y sr mx rows clips total).2
          = total + (availSamples full_y sr rows : ℚ) / sr
         ∨ mx ≤ (concatLoop full_y sr mx rows clips total).2) := by
  intro rows
  induction rows with
  | nil =>
    intro clips total _
    simp [concatLoop, availSamples]
  | cons r rs ih =>
    intro clips total hstarts
    have hr : 0 ≤ r.start := hstarts r (List.mem_cons_self r rs)
    have hrs : ∀ x ∈ rs, 0 ≤ x.start := fun x hx => hstarts x (List.mem_cons_of_mem r hx)
    simp only [concatLoop]
    split_ifs with hd hl hc hb
    · -- degenerate row: contributes nothing
      have hskip : rowClip full_y sr r = [] := by rw [rowClip, if_pos hd]
      rw [availSamples_cons, hskip]
      simpa using ih clips total hrs
    · -- start index past the end of the buffer
      have hskip : rowClip full_y sr r = [] := by
        rw [rowClip, if_neg hd]
        simp only
        rw [if_pos hl]
      rw [availSamples_cons, hskip]
      simpa using ih clips total hrs
    · -- empty clip
      have hskip : rowClip full_y sr r = [] := by
        rw [rowClip, if_neg hd]
        simp only
        rw [if_neg hl]
        exact hc
      rw [availSamples_cons, hskip]
      simpa using ih clips total hrs
    all_goals
      set a : ℤ := pyInt (r.start * sr) with ha_def
      set b : ℤ := min (pyInt (r.«end» * sr)) (full_y.length : ℤ) with hb_def
      have hclip : rowClip full_y sr r = pySlice full_y a b := by
        rw [rowClip, if_neg hd]
        simp only
        rw [if_neg hl]
      have ha0 : 0 ≤ a := pyInt_nonneg (mul_nonneg hr hsr.le)
      have hab : a ≤ b := by
        have h5 : r.start * sr ≤ r.«end» * sr :=
          mul_le_mul_of_nonneg_right (le_of_lt (not_le.1 hd)) hsr.le
        exact le_min (pyInt_mono h5) (le_of_lt (not_le.1 hl))
      have hble : b ≤ (full_y.length : ℤ) := min_le_right _ _
      have hlen : ((pySlice full_y a b).length : ℤ) = b - a :=
        pySlice_length_eq ha0 hab hble
      have hlenq : ((pySlice full_y a b).length : ℚ) = ((b - a : ℤ) : ℚ) := by
        exact_mod_cast hlen
    all_goals
      have hlen2 : ((pySlice full_y a b).length : ℚ) = ((b : ℚ)) - ((a : ℚ)) := by
        push_cast at hlenq
        exact hlenq
      have hcast : ((b - a : ℤ) : ℚ) = (b : ℚ) - (a : ℚ) := by push_cast; ring
      rw [hcast] at hb ⊢
      have hx : (total + ((b : ℚ) - (a : ℚ)) / sr - total) * sr = (b : ℚ) - (a : ℚ) := by
        rw [add_sub_cancel_left, div_mul_cancel₀ _ (ne_of_gt hsr)]
      have havail : (availSamples full_y sr (r :: rs) : ℚ)
          = ((b : ℚ) - (a : ℚ)) + (availSamples full_y sr rs : ℚ) := by
        rw [availSamples_cons, hclip]
        push_cast [hlen2]
        push_cast at hlen2
        linarith
      have hrest : (0 : ℚ) ≤ (availSamples full_y sr rs : ℚ) / sr :=
        div_nonneg (Nat.cast_nonneg _) hsr.le
    · -- break at the cap
      refine ⟨?_, ?_, Or.inr hb⟩
      · rw [sumLen_append, hx]
        push_cast
        push_cast at hlen2
        linarith
      · rw [havail, add_div]
        linarith
    · -- under the cap: recurse
      rcases ih (clips ++ [pySlice full_y a b]) (total + ((b : ℚ) - (a : ℚ)) / sr) hrs
        with ⟨ih1, ih2, ih3⟩
      have hsplit :
          ((concatLoop full_y sr mx rs (clips ++ [pySlice full_y a b])
              (total + ((b : ℚ) - (a : ℚ)) / sr)).2 - total) * sr
          = ((concatLoop full_y sr mx rs (clips ++ [pySlice full_y a b])
              (total + ((b : ℚ) - (a : ℚ)) / sr)).2
                - (total + ((b : ℚ) - (a : ℚ)) / sr)) * sr
            + (total + ((b : ℚ) - (a : ℚ)) / sr - total) * sr := by ring
      refine ⟨?_, ?_, ?_⟩
      · rw [ih1, sumLen_append, hsplit, hx]
        push_cast
        push_cast at hlen2
        linarith
      · rw [havail, add_div]
        linarith
      · rcases ih3 with h | h
        · left
          rw [h, havail, add_div]
          ring
        · exact Or.inr h

/-- With nonnegative starts the spec's clipped walk agrees with the source's
walk: clamping the start index at 0 changes nothing. -/
theorem concatLoopClipped_eq {full_y : List ℚ} {sr mx : ℚ} (hsr : 0 < sr) :
    ∀ (rows : List Iv) (clips : List (List ℚ)) (total : ℚ),
      (∀ r ∈ rows, 0 ≤ r.start) →
      concatLoopClipped full_y sr mx rows clips total
        = concatLoop full_y sr mx rows clips total := by
  intro rows
  induction rows with
  | nil => intro clips total _; rfl
  | cons r rs ih =>
    intro clips total hstarts
    have hr : 0 ≤ r.start := hstarts r (List.mem_cons_self r rs)
    have hrs : ∀ x ∈ rs, 0 ≤ x.start := fun x hx => hstarts x (List.mem_cons_of_mem r hx)
    have ha0 : 0 ≤ pyInt (r.start * sr) := pyInt_nonneg (mul_nonneg hr hsr.le)
    simp only [concatLoopClipped, concatLoop, max_eq_left ha0]
    split_ifs <;> first | rfl | exact ih _ _ hrs

end WhisperX


namespace WhisperX

/-! ### Claims about the speaker evidence aggregator -/

/-- C2 as stated is false: with the 2-sample buffer `[0, 0]`, sample rate 1
and the single interval `[0, 2]` (in-bounds audio 2 s, cap 1 s), the
aggregator returns the whole 2-sample buffer, whose duration 2 s exceeds the
cap `max_total_seconds = 1`. -/
theorem C2_cap_exceeded_cex :
    concat_speaker_audio [0, 0] 1 [⟨0, 2⟩] 1 1 = .ok (some [0, 0]) ∧
    1 < availableTotal [0, 0] 1 [⟨0, 2⟩] ∧
    ¬ ((([0, 0] : List ℚ).length : ℚ) / 1 ≤ 1) := by
  refine ⟨?_, ?_, ?_⟩
  · norm_num [concat_speaker_audio, concatLoop, pySlice, pyInt, Int.ceil_neg,
      Int.floor_ofNat, Int.ceil_ofNat, Int.floor_zero, Int.ceil_zero,
      Int.floor_one, Int.ceil_one]
    rfl
  · norm_num [availableTotal, availSamples, rowClip, pySlice, pyInt,
      Int.floor_ofNat, Int.ceil_ofNat, Int.floor_zero, Int.ceil_zero]
  · norm_num

/-- C2 (amended): the loop stops adding further intervals once the
accumulated total reaches `max_total_sec`, but the cap-crossing clip itself
is not truncated, so the returned buffer's duration is only bounded by
`max_total_sec` plus the duration of the whole audio buffer (the most one
clip can add), not by `max_total_sec` itself. -/
theorem C2_cap_overshoot_bounded (full_y : List ℚ) (sr : ℚ) (rows : List Iv)
    (mn mx : ℚ) (buf : List ℚ) (hsr : 0 < sr) (hmx : 0 < mx)
    (h : concat_speaker_audio full_y sr rows mn mx = .ok (some buf)) :
    (buf.length : ℚ) / sr < mx + (full_y.length : ℚ) / sr := by
  rcases concat_ok_some h with ⟨_, _, hbuf⟩
  have hloop := @concatLoop_sumLen_lt full_y sr mx hsr rows [] 0 hmx (by simp [sumLen])
  have hlen : (buf.length : ℚ) = (sumLen (concatLoop full_y sr mx rows [] 0).1 : ℚ) := by
    rw [hbuf]
    norm_cast
    simp [sumLen, List.length_flatten]
  rw [div_lt_iff₀ hsr, add_mul, div_mul_cancel₀ _ (ne_of_gt hsr)]
  rw [hlen]
  exact hloop

/-- Witness for C2: the amended bound evaluated at the counterexample input
(`2/1 < 1 + 2/1`). -/
theorem C2_cap_overshoot_bounded_witness :
    ((([0, 0] : List ℚ).length : ℚ)) / 1 < 1 + ((([0, 0] : List ℚ).length : ℚ)) / 1 :=
  C2_cap_overshoot_bounded [0, 0] 1 [⟨0, 2⟩] 1 1 [0, 0] (by norm_num) (by norm_num)
    (by norm_num [concat_speaker_audio, concatLoop, pySlice, pyInt,
          Int.floor_ofNat, Int.ceil_ofNat, Int.floor_zero, Int.ceil_zero,
          Int.floor_one, Int.ceil_one]
        rfl)

/-- C7 as stated is false: an interval with negative start is not clipped to
`[0, len(full_audio))` — its start index is handed to Python slicing, which
addresses from the end of the buffer. For `full_y = [1,2,3,4]`, `sr = 1` and
the interval `[-3, 4]`, the source returns `[2,3,4]` (samples from position
1 on, addressed as `full_y[-3:4]`), while the spec's clipped walk returns
the whole buffer `[1,2,3,4]` (samples from position 0 on). -/
theorem C7_negative_start_from_end_cex :
    concat_speaker_audio [1, 2, 3, 4] 1 [⟨-3, 4⟩] 1 100 = .ok (some [2, 3, 4]) ∧
    concat_speaker_audio_clipped [1, 2, 3, 4] 1 [⟨-3, 4⟩] 1 100 = .ok (some [1, 2, 3, 4]) ∧
    ([2, 3, 4] : List ℚ) ≠ [1, 2, 3, 4] := by
  refine ⟨?_, ?_, by simp⟩
  · norm_num [concat_speaker_audio, concatLoop, pySlice, pyInt, Int.ceil_neg,
      Int.floor_ofNat, Int.ceil_ofNat, Int.floor_zero, Int.ceil_zero,
      Int.floor_one, Int.ceil_one]
    rfl
  · norm_num [concat_speaker_audio_clipped, concatLoopClipped, pySlice, pyInt,
      Int.ceil_neg, Int.floor_ofNat, Int.ceil_ofNat, Int.floor_zero,
      Int.ceil_zero, Int.floor_one, Int.ceil_one]
    rfl

/-- C7 (amended): only the upper end of an interval is clamped; the start
index is not. For interval lists whose starts are all nonnegative the source
aggregator coincides with the spec's clipped aggregator, so there every
sample does come from the in-range portion of its interval. -/
theorem C7_clip_equiv_nonneg_starts (full_y : List ℚ) (sr : ℚ) (rows : List Iv)
    (mn mx : ℚ) (hsr : 0 < sr) (hstarts : ∀ r ∈ rows, 0 ≤ r.start) :
    concat_speaker_audio full_y sr rows mn mx
      = concat_speaker_audio_clipped full_y sr rows mn mx := by
  simp only [concat_speaker_audio, concat_speaker_audio_clipped,
    concatLoopClipped_eq hsr rows [] 0 hstarts]

/-- Witness for C7: the equivalence evaluated at a concrete nonnegative-start
input. -/
theorem C7_clip_equiv_nonneg_starts_witness :
    concat_speaker_audio [0, 0] 1 [⟨0, 2⟩] 1 1
      = concat_speaker_audio_clipped [0, 0] 1 [⟨0, 2⟩] 1 1 :=
  C7_clip_equiv_nonneg_starts [0, 0] 1 [⟨0, 2⟩] 1 1 (by norm_num)
    (by intro r hr; rcases List.mem_singleton.1 hr with rfl; norm_num)

/-- C9 as stated is false: with `full_y = [1,2,3,4]`, `sr = 1`, the single
interval `[-10, 2]` and bounds `0 < min = 3 ≤ max = 25`, the tracked total
`(b - a)/sr = 12` s overcounts the 2 in-bounds samples, so the aggregator
returns a 2-sample buffer of duration 2 s < `min_total_seconds` even though
the speaker's available in-bounds audio (2 s) is below the minimum. -/
theorem C9_min_bound_cex :
    (0 : ℚ) < 3 ∧ (3 : ℚ) ≤ 25 ∧
    concat_speaker_audio [1, 2, 3, 4] 1 [⟨-10, 2⟩] 3 25 = .ok (some [1, 2]) ∧
    availableTotal [1, 2, 3, 4] 1 [⟨-10, 2⟩] < 3 ∧
    ¬ (3 ≤ (([1, 2] : List ℚ).length : ℚ) / 1) := by
  refine ⟨by norm_num, by norm_num, ?_, ?_, by norm_num⟩
  · norm_num [concat_speaker_audio, concatLoop, pySlice, pyInt, Int.ceil_neg,
      Int.floor_ofNat, Int.ceil_ofNat, Int.floor_zero, Int.ceil_zero,
      Int.floor_one, Int.ceil_one]
    rfl
  · norm_num [availableTotal, availSamples, rowClip, pySlice, pyInt,
      Int.ceil_neg, Int.floor_ofNat, Int.ceil_ofNat, Int.floor_zero,
      Int.ceil_zero, Int.floor_one, Int.ceil_one]

/-- C9 (amended): restricted to interval lists whose starts are nonnegative
(where the tracked total equals the collected duration), the aggregator
returns `none` exactly when the speaker's available in-bounds,
non-degenerate audio is shorter than `min_total_seconds`, and any returned
buffer has duration at least `min_total_seconds`. -/
theorem C9_min_bound_nonneg_starts (full_y : List ℚ) (sr : ℚ) (rows : List Iv)
    (mn mx : ℚ) (hsr : 0 < sr) (hmn : 0 < mn) (hmx : mn ≤ mx)
    (hstarts : ∀ r ∈ rows, 0 ≤ r.start) :
    (concat_speaker_audio full_y sr rows mn mx = .ok none ↔
      availableTotal full_y sr rows < mn) ∧
    (∀ buf, concat_speaker_audio full_y sr rows mn mx = .ok (some buf) →
      mn ≤ (buf.length : ℚ) / sr) := by
  rcases @concatLoop_exact full_y sr mx hsr rows [] 0 hstarts with ⟨e1, e2, e3⟩
  simp only [show sumLen ([] : List (List ℚ)) = 0 from rfl, Nat.cast_zero,
    zero_add, sub_zero] at e1
  rw [zero_add] at e2 e3
  constructor
  · rw [concat_ok_none_iff, availableTotal]
    constructor
    · intro hlt
      rcases e3 with h | h
      · linarith
      · linarith
    · intro hA
      linarith
  · intro buf hb
    rcases concat_ok_some hb with ⟨hm, _, hbuf⟩
    have hlen : (buf.length : ℚ)
        = (sumLen (concatLoop full_y sr mx rows [] 0).1 : ℚ) := by
      rw [hbuf]
      norm_cast
      simp [sumLen, List.length_flatten]
    rw [hlen, e1, mul_div_assoc, div_self (ne_of_gt hsr), mul_one]
    exact hm

/-- Witness for C9: both conclusions evaluated at a concrete input with an
empty buffer (no available audio, so the aggregator must return `none`). -/
theorem C9_min_bound_nonneg_starts_witness :
    (concat_speaker_audio [] 1 [⟨0, 2⟩] 1 1 = .ok none ↔
      availableTotal [] 1 [⟨0, 2⟩] < 1) ∧
    (∀ buf, concat_speaker_audio [] 1 [⟨0, 2⟩] 1 1 = .ok (some buf) →
      1 ≤ (buf.length : ℚ) / 1) :=
  C9_min_bound_nonneg_starts [] 1 [⟨0, 2⟩] 1 1 (by norm_num) (by norm_num)
    (by norm_num) (by intro r hr; rcases List.mem_singleton.1 hr with rfl; norm_num)

/-- C10: with `min_total_sec > 0` the `np.concatenate` error branch is
unreachable (an empty clip list means zero accumulated total, which is below
the minimum, so `None` is returned first), and any returned buffer is
nonempty because every collected clip is nonempty. -/
theorem C10_no_empty_concat (full_y : List ℚ) (sr : ℚ) (rows : List Iv)
    (mn mx : ℚ) (hmn : 0 < mn) :
    (∀ e, concat_speaker_audio full_y sr rows mn mx ≠ .error e) ∧
    (∀ buf, concat_speaker_audio full_y sr rows mn mx = .ok (some buf) → buf ≠ []) := by
  constructor
  · intro e he
    simp only [concat_speaker_audio] at he
    split_ifs at he with h1 h2
    rcases concatLoop_result_nil rows [] 0 h2 with ⟨-, ht⟩
    rw [ht] at h1
    exact h1 hmn
  · intro buf hb hnil
    rcases concat_ok_some hb with ⟨-, hne, hbuf⟩
    rw [hbuf] at hnil
    rw [List.flatten_eq_nil_iff] at hnil
    rcases List.exists_mem_of_ne_nil _ hne with ⟨c, hc⟩
    exact concatLoop_clips_ne_nil rows [] 0 (by simp) c hc (hnil c hc)

/-- Witness for C10: both conclusions at a concrete input whose aggregation
returns `none`. -/
theorem C10_no_empty_concat_witness :
    (∀ e, concat_speaker_audio [] 1 [⟨0, 2⟩] 1 1 ≠ .error e) ∧
    (∀ buf, concat_speaker_audio [] 1 [⟨0, 2⟩] 1 1 = .ok (some buf) → buf ≠ []) :=
  C10_no_empty_concat [] 1 [⟨0, 2⟩] 1 1 (by norm_num)

end WhisperX

namespace WhisperX

/-! ### The overlap-based speaker assignment (step 3 of `analyze`) -/

/-- One diarization row: `{start, end, speaker}`. -/
structure DiarRow where
  start : ℚ
  «end» : ℚ
  speaker : String
deriving DecidableEq, Repr

/-- `overlap = max(0.0, overlap_end - overlap_start)` for a segment and a row. -/
def overlap (seg_start seg_end row_start row_end : ℚ) : ℚ :=
  max 0 (min seg_end row_end - max seg_start row_start)

/-- Overlap of a segment with one diarization row. -/
def segOverlap (seg_start seg_end : ℚ) (r : DiarRow) : ℚ :=
  overlap seg_start seg_end r.start r.«end»

/-- `abs(seg_mid - row_mid)` for a segment and one diarization row. -/
def segMidDist (seg_start seg_end : ℚ) (r : DiarRow) : ℚ :=
  |(seg_start + seg_end) / 2 - (r.start + r.«end») / 2|

/-- The source's strict-improvement fold: update `best` only when the score
strictly exceeds the best score so far (`if overlap > best_overlap`). -/
def pickMaxFold (f : DiarRow → ℚ) (init : String × ℚ) (rows : List DiarRow) :
    String × ℚ :=
  rows.foldl (fun best row => if best.2 < f row then (row.speaker, f row) else best) init

/-- The source's fallback fold: `min_dist` starts at infinity (modelled as
`none`) and is replaced only on strict decrease (`if dist < min_dist`). -/
def pickMinFold (g : DiarRow → ℚ) (init : String × Option ℚ) (rows : List DiarRow) :
    String × Option ℚ :=
  rows.foldl
    (fun best row =>
      match best.2 with
      | none => (row.speaker, some (g row))
      | some m => if g row < m then (row.speaker, some (g row)) else best)
    init

/-- Phase 1 of the assignment: best speaker by overlap, starting from
`("SPEAKER_UNKNOWN", 0.0)`. -/
def bestByOverlap (seg_start seg_end : ℚ) (rows : List DiarRow) : String × ℚ :=
  pickMaxFold (segOverlap seg_start seg_end) ("SPEAKER_UNKNOWN", 0) rows

/-- Phase 2 of the assignment: closest speaker by midpoint distance. -/
def bestByMidpoint (seg_start seg_end : ℚ) (rows : List DiarRow) : String × Option ℚ :=
  pickMinFold (segMidDist seg_start seg_end) ("SPEAKER_UNKNOWN", none) rows

/-- The per-segment speaker assignment of `analyze`: overlap phase, then the
midpoint fallback when the best overlap is exactly zero. -/
def assignSpeaker (seg_start seg_end : ℚ) (rows : List DiarRow) : String :=
  let best := bestByOverlap seg_start seg_end rows
  if best.2 = 0 then (bestByMidpoint seg_start seg_end rows).1 else best.1

/-- Modelled from the spec: "Select the interval with the strictly greatest
overlap; ties keep the first interval encountered in the input order" — the
first row attaining the maximum of `f`. -/
def specSelectMax (f : DiarRow → ℚ) : List DiarRow → Option DiarRow
  | [] => none
  | r :: rs =>
    match specSelectMax f rs with
    | none => some r
    | some r' => if f r < f r' then some r' else some r

/-- Modelled from the spec: "pick the minimum; ties again resolve to input
order" — the first row attaining the minimum of `g`. -/
def specSelectMin (g : DiarRow → ℚ) : List DiarRow → Option DiarRow
  | [] => none
  | r :: rs =>
    match specSelectMin g rs with
    | none => some r
    | some r' => if g r' < g r then some r' else some r

/-- Modelled from the spec: the two-phase assignment policy — the first row
of strictly greatest overlap, falling back to the first row of minimal
midpoint distance when the best overlap is exactly zero. -/
def specAssign (seg_start seg_end : ℚ) (rows : List DiarRow) : Option String :=
  match specSelectMax (segOverlap seg_start seg_end) rows with
  | none => none
  | some r =>
    if segOverlap seg_start seg_end r = 0 then
      (specSelectMin (segMidDist seg_start seg_end) rows).map DiarRow.speaker
    else some r.speaker

theorem specSelectMax_cons (f : DiarRow → ℚ) (r : DiarRow) (rs : List DiarRow) :
    ∃ r0, specSelectMax f (r :: rs) = some r0 := by
  rw [specSelectMax]
  rcases specSelectMax f rs with - | r'
  · exact ⟨r, rfl⟩
  · simp only
    by_cases hlt : f r < f r'
    · exact ⟨r', by rw [if_pos hlt]⟩
    · exact ⟨r, by rw [if_neg hlt]⟩

theorem specSelectMin_cons (g : DiarRow → ℚ) (r : DiarRow) (rs : List DiarRow) :
    ∃ r0, specSelectMin g (r :: rs) = some r0 := by
  rw [specSelectMin]
  rcases specSelectMin g rs with - | r'
  · exact ⟨r, rfl⟩
  · simp only
    by_cases hlt : g r' < g r
    · exact ⟨r', by rw [if_pos hlt]⟩
    · exact ⟨r, by rw [if_neg hlt]⟩

/-- The source's strict-improvement fold computes exactly the spec's
first-of-the-maxima selection, for any starting threshold. -/
theorem pickMaxFold_eq (f : DiarRow → ℚ) :
    ∀ (rows : List DiarRow) (init : String × ℚ),
      pickMaxFold f init rows
        = (specSelectMax f rows).elim init
            (fun r => if init.2 < f r then (r.speaker, f r) else init) := by
  intro rows
  induction rows with
  | nil => intro init; rfl
  | cons r rs ih =>
    intro init
    have step : pickMaxFold f init (r :: rs)
        = pickMaxFold f (if init.2 < f r then (r.speaker, f r) else init) rs := rfl
    rw [step, ih, specSelectMax]
    rcases h : specSelectMax f rs with - | r'
    · simp only [Option.elim_none, Option.elim_some]
    · simp only [Option.elim_none, Option.elim_some]
      by_cases h1 : init.2 < f r
      · rw [if_pos h1]
        by_cases h2 : f r < f r'
        · rw [if_pos h2]
          have h3 : ((r.speaker, f r) : String × ℚ).2 < f r' := h2
          rw [if_pos h3]
          simp only [Option.elim_some]
          rw [if_pos (lt_trans h1 h2)]
        · rw [if_neg h2]
          have h3 : ¬ ((r.speaker, f r) : String × ℚ).2 < f r' := h2
          rw [if_neg h3]
          simp only [Option.elim_some]
          rw [if_pos h1]
      · rw [if_neg h1]
        by_cases h2 : f r < f r'
        · rw [if_pos h2]
          simp only [Option.elim_some]
        · rw [if_neg h2]
          simp only [Option.elim_some]
          rw [if_neg h1, if_neg (not_lt.2 (le_trans (not_lt.1 h2) (not_lt.1 h1)))]

/-- The source's fallback fold with a finite threshold computes the spec's
first-of-the-minima selection. -/
theorem pickMinFold_eq_some (g : DiarRow → ℚ) :
    ∀ (rows : List DiarRow) (s : String) (m : ℚ),
      pickMinFold g (s, some m) rows
        = (specSelectMin g rows).elim (s, some m)
            (fun r => if g r < m then (r.speaker, some (g r)) else (s, some m)) := by
  intro rows
  induction rows with
  | nil => intro s m; rfl
  | cons r rs ih =>
    intro s m
    have step : pickMinFold g (s, some m) (r :: rs)
        = pickMinFold g (if g r < m then (r.speaker, some (g r)) else (s, some m)) rs := rfl
    rw [step]
    by_cases h1 : g r < m
    · rcases h : specSelectMin g rs with - | r'
      · rw [if_pos h1, ih]
        simp [specSelectMin, h, h1]
      · rw [if_pos h1, ih]
        by_cases h2 : g r' < g r
        · simp [specSelectMin, h, h1, h2, lt_trans h2 h1]
        · simp [specSelectMin, h, h1, h2]
    · rcases h : specSelectMin g rs with - | r'
      · rw [if_neg h1, ih]
        simp [specSelectMin, h, h1]
      · rw [if_neg h1, ih]
        by_cases h2 : g r' < g r
        · simp [specSelectMin, h, h2]
        · have h3 : ¬ g r' < m := not_lt.2 (le_trans (not_lt.1 h1) (not_lt.1 h2))
          simp [specSelectMin, h, h1, h2, h3]

/-- The source's fallback fold from the infinite threshold selects the
spec's first row of minimal distance. -/
theorem pickMinFold_eq_none (g : DiarRow → ℚ) :
    ∀ (rows : List DiarRow) (s : String),
      pickMinFold g (s, none) rows
        = (specSelectMin g rows).elim (s, none)
            (fun r => (r.speaker, some (g r))) := by
  intro rows
  rcases rows with - | ⟨r, rs⟩
  · intro s; rfl
  · intro s
    have step : pickMinFold g (s, none) (r :: rs)
        = pickMinFold g (r.speaker, some (g r)) rs := rfl
    rw [step, pickMinFold_eq_some]
    rcases h : specSelectMin g rs with - | r'
    · simp [specSelectMin, h]
    · by_cases h2 : g r' < g r
      · simp [specSelectMin, h, h2]
      · simp [specSelectMin, h, h2]

theorem pickMaxFold_const (f : DiarRow → ℚ) :
    ∀ (rows : List DiarRow) (init : String × ℚ),
      (∀ r ∈ rows, f r ≤ init.2) → pickMaxFold f init rows = init := by
  intro rows
  induction rows with
  | nil => intro init _; rfl
  | cons r rs ih =>
    intro init hb
    have step : pickMaxFold f init (r :: rs)
        = pickMaxFold f (if init.2 < f r then (r.speaker, f r) else init) rs := rfl
    rw [step, if_neg (not_lt.2 (hb r (List.mem_cons_self r rs)))]
    exact ih init (fun x hx => hb x (List.mem_cons_of_mem r hx))

/-- When `r` is the strict maximizer of `f` over `rows` and beats the initial
threshold, the source's fold selects exactly `r`. -/
theorem pickMaxFold_unique (f : DiarRow → ℚ) :
    ∀ (rows : List DiarRow) (init : String × ℚ) (r : DiarRow),
      r ∈ rows → init.2 < f r → (∀ r' ∈ rows, r' = r ∨ f r' < f r) →
      pickMaxFold f init rows = (r.speaker, f r) := by
  intro rows
  induction rows with
  | nil => intro init r h; exact absurd h (List.not_mem_nil r)
  | cons x rs ih =>
    intro init r hmem hlt hall
    have step : pickMaxFold f init (x :: rs)
        = pickMaxFold f (if init.2 < f x then (x.speaker, f x) else init) rs := rfl
    rw [step]
    by_cases hx : x = r
    · subst hx
      rw [if_pos hlt]
      refine pickMaxFold_const f rs (x.speaker, f x) (fun r' h' => ?_)
      rcases hall r' (List.mem_cons_of_mem x h') with h | h
      · rw [h]
      · exact le_of_lt h
    · have hxlt : f x < f r := (hall x (List.mem_cons_self x rs)).resolve_left hx
      have hmem' : r ∈ rs := by
        rcases List.mem_cons.1 hmem with h | h
        · exact absurd h.symm hx
        · exact h
      have hall' : ∀ r' ∈ rs, r' = r ∨ f r' < f r :=
        fun r' h' => hall r' (List.mem_cons_of_mem x h')
      by_cases hi : init.2 < f x
      · rw [if_pos hi]
        exact ih (x.speaker, f x) r hmem' (lt_of_le_of_lt (le_of_eq rfl) hxlt) hall'
      · rw [if_neg hi]
        exact ih init r hmem' hlt hall'

theorem pickMaxFold_speaker_mem (f : DiarRow → ℚ) :
    ∀ (rows : List DiarRow) (init : String × ℚ),
      (pickMaxFold f init rows).1 = init.1 ∨
      (pickMaxFold f init rows).1 ∈ rows.map DiarRow.speaker := by
  intro rows
  induction rows with
  | nil => intro init; exact Or.inl rfl
  | cons r rs ih =>
    intro init
    have step : pickMaxFold f init (r :: rs)
        = pickMaxFold f (if init.2 < f r then (r.speaker, f r) else init) rs := rfl
    rw [step]
    by_cases hi : init.2 < f r
    · rw [if_pos hi]
      rcases ih (r.speaker, f r) with h | h
      · exact Or.inr (by rw [h]; exact List.mem_cons_self _ _)
      · exact Or.inr (List.mem_cons_of_mem _ h)
    · rw [if_neg hi]
      rcases ih init with h | h
      · exact Or.inl h
      · exact Or.inr (List.mem_cons_of_mem _ h)

theorem pickMinFold_speaker_mem (g : DiarRow → ℚ) :
    ∀ (rows : List DiarRow) (init : String × Option ℚ),
      (pickMinFold g init rows).1 = init.1 ∨
      (pickMinFold g init rows).1 ∈ rows.map DiarRow.speaker := by
  intro rows
  induction rows with
  | nil => intro init; exact Or.inl rfl
  | cons r rs ih =>
    intro init
    rcases init with ⟨s, - | m⟩
    · have step : pickMinFold g (s, none) (r :: rs)
          = pickMinFold g (r.speaker, some (g r)) rs := rfl
      rw [step]
      rcases ih (r.speaker, some (g r)) with h | h
      · exact Or.inr (by rw [h]; exact List.mem_cons_self _ _)
      · exact Or.inr (List.mem_cons_of_mem _ h)
    · have step : pickMinFold g (s, some m) (r :: rs)
          = pickMinFold g
              (if g r < m then (r.speaker, some (g r)) else (s, some m)) rs := rfl
      rw [step]
      by_cases hi : g r < m
      · rw [if_pos hi]
        rcases ih (r.speaker, some (g r)) with h | h
        · exact Or.inr (by rw [h]; exact List.mem_cons_self _ _)
        · exact Or.inr (List.mem_cons_of_mem _ h)
      · rw [if_neg hi]
        rcases ih (s, some m) with h | h
        · exact Or.inl h
        · exact Or.inr (List.mem_cons_of_mem _ h)

/-- Every assigned speaker is a diarization label or the fallback label. -/
theorem assignSpeaker_mem (seg_start seg_end : ℚ) (rows : List DiarRow) :
    assignSpeaker seg_start seg_end rows ∈ rows.map DiarRow.speaker ∨
    assignSpeaker seg_start seg_end rows = "SPEAKER_UNKNOWN" := by
  unfold assignSpeaker bestByOverlap bestByMidpoint
  by_cases h : (pickMaxFold (segOverlap seg_start seg_end) ("SPEAKER_UNKNOWN", 0) rows).2 = 0
  · rw [if_pos h]
    rcases pickMinFold_speaker_mem (segMidDist seg_start seg_end) rows
        ("SPEAKER_UNKNOWN", none) with hm | hm
    · exact Or.inr hm
    · exact Or.inl hm
  · rw [if_neg h]
    rcases pickMaxFold_speaker_mem (segOverlap seg_start seg_end) rows
        ("SPEAKER_UNKNOWN", 0) with hm | hm
    · exact Or.inr hm
    · exact Or.inl hm

/-- `r` contains the segment `[seg_start, seg_end]`. -/
def containsSeg (r : DiarRow) (seg_start seg_end : ℚ) : Prop :=
  r.start ≤ seg_start ∧ seg_end ≤ r.«end»

instance (r : DiarRow) (s e : ℚ) : Decidable (containsSeg r s e) :=
  inferInstanceAs (Decidable (_ ∧ _))

/-- A contained segment's overlap is its own duration. -/
theorem overlap_of_contains {seg_start seg_end row_start row_end : ℚ}
    (hse : seg_start ≤ seg_end) (h1 : row_start ≤ seg_start)
    (h2 : seg_end ≤ row_end) :
    overlap seg_start seg_end row_start row_end = seg_end - seg_start := by
  unfold overlap
  rw [min_eq_left h2, max_eq_left h1, max_eq_right (sub_nonneg.2 hse)]

/-- A non-containing interval overlaps a positive-duration segment strictly
less than the segment's duration. -/
theorem overlap_lt_of_not_contains {seg_start seg_end : ℚ} {r : DiarRow}
    (hse : seg_start < seg_end) (hnc : ¬ containsSeg r seg_start seg_end) :
    segOverlap seg_start seg_end r < seg_end - seg_start := by
  unfold containsSeg at hnc
  unfold segOverlap overlap
  rw [not_and_or, not_le, not_le] at hnc
  rcases hnc with h | h
  · refine max_lt (by linarith) ?_
    have h1 := min_le_left seg_end r.«end»
    have h2 := le_max_right seg_start r.start
    linarith
  · refine max_lt (by linarith) ?_
    have h1 := min_le_right seg_end r.«end»
    have h2 := le_max_left seg_start r.start
    linarith

/-! ### Claims about the assignment algorithm -/

/-- C5: on every non-empty interval list the source's per-segment assignment
realises the spec's two-phase policy — the first interval of strictly
greatest overlap, and, when the best overlap is exactly zero, the first
interval of minimal midpoint distance — and the spec's concrete instance
holds: segment `[10.0, 10.5]` against `[{0,5,"A"}, {20,25,"B"}]` selects
`"A"`. -/
theorem C5_two_phase_assignment :
    (∀ (seg_start seg_end : ℚ) (r : DiarRow) (rs : List DiarRow),
      some (assignSpeaker seg_start seg_end (r :: rs))
        = specAssign seg_start seg_end (r :: rs)) ∧
    assignSpeaker 10 (21/2) [⟨0, 5, "A"⟩, ⟨20, 25, "B"⟩] = "A" := by
  constructor
  · intro seg_start seg_end r rs
    obtain ⟨r0, h0⟩ := specSelectMax_cons (segOverlap seg_start seg_end) r rs
    have hnn : 0 ≤ segOverlap seg_start seg_end r0 := le_max_left _ _
    rw [specAssign, h0]
    simp only
    unfold assignSpeaker bestByOverlap
    rw [pickMaxFold_eq, h0]
    simp only [Option.elim_some]
    by_cases hz : segOverlap seg_start seg_end r0 = 0
    · rw [if_pos hz]
      have hni : ¬ ((("SPEAKER_UNKNOWN", (0 : ℚ)) : String × ℚ)).2
          < segOverlap seg_start seg_end r0 := by
        rw [hz]; exact lt_irrefl 0
      rw [if_neg hni, if_pos rfl]
      unfold bestByMidpoint
      rw [pickMinFold_eq_none]
      obtain ⟨r1, h1⟩ := specSelectMin_cons (segMidDist seg_start seg_end) r rs
      rw [h1]
      simp
    · rw [if_neg hz]
      have hpos : ((("SPEAKER_UNKNOWN", (0 : ℚ)) : String × ℚ)).2
          < segOverlap seg_start seg_end r0 := lt_of_le_of_ne hnn (Ne.symm hz)
      rw [if_pos hpos]
      simp [hz]
  · norm_num [assignSpeaker, bestByOverlap, bestByMidpoint, pickMaxFold,
      pickMinFold, segOverlap, segMidDist, overlap, min_def, max_def,
      abs_eq_max_neg]

/-- C6 as stated is false for zero-duration segments: the segment `[0, 0]`
lies (only) inside `{0, 10, "A"}`, yet its overlap with every interval is 0,
so the midpoint fallback fires and selects `"B"` (midpoint 2.5 is closer to
0 than "A"'s midpoint 5). -/
theorem C6_zero_duration_container_cex :
    containsSeg ⟨0, 10, "A"⟩ 0 0 ∧
    ¬ containsSeg ⟨2, 3, "B"⟩ 0 0 ∧
    assignSpeaker 0 0 [⟨0, 10, "A"⟩, ⟨2, 3, "B"⟩] = "B" ∧
    ("B" : String) ≠ "A" := by
  refine ⟨⟨by norm_num, by norm_num⟩, ?_, ?_, by simp⟩
  · intro h
    rcases h with ⟨h1, -⟩
    norm_num at h1
  · norm_num [assignSpeaker, bestByOverlap, bestByMidpoint, pickMaxFold,
      pickMinFold, segOverlap, segMidDist, overlap, min_def, max_def,
      abs_eq_max_neg]

/-- C6 (amended): a segment fully inside an interval has overlap equal to its
own duration (for `start ≤ end`), and for segments of *positive* duration
the unique containing interval is always selected; a zero-duration contained
segment instead falls through to the midpoint fallback, which need not pick
the container. -/
theorem C6_unique_container_positive_duration :
    (∀ seg_start seg_end row_start row_end : ℚ, seg_start ≤ seg_end →
      row_start ≤ seg_start → seg_end ≤ row_end →
      overlap seg_start seg_end row_start row_end = seg_end - seg_start) ∧
    (∀ (seg_start seg_end : ℚ) (rows : List DiarRow) (r : DiarRow),
      seg_start < seg_end → r ∈ rows → containsSeg r seg_start seg_end →
      (∀ r' ∈ rows, containsSeg r' seg_start seg_end → r' = r) →
      assignSpeaker seg_start seg_end rows = r.speaker) := by
  constructor
  · intro seg_start seg_end row_start row_end hse h1 h2
    exact overlap_of_contains hse h1 h2
  · intro seg_start seg_end rows r hse hmem hcont huniq
    have hfr : segOverlap seg_start seg_end r = seg_end - seg_start :=
      overlap_of_contains hse.le hcont.1 hcont.2
    have hpos : 0 < segOverlap seg_start seg_end r := by
      rw [hfr]; linarith
    have hall : ∀ r' ∈ rows, r' = r ∨
        segOverlap seg_start seg_end r' < segOverlap seg_start seg_end r := by
      intro r' h'
      by_cases hc : containsSeg r' seg_start seg_end
      · exact Or.inl (huniq r' h' hc)
      · refine Or.inr ?_
        rw [hfr]
        exact overlap_lt_of_not_contains hse hc
    unfold assignSpeaker bestByOverlap
    rw [pickMaxFold_unique (segOverlap seg_start seg_end) rows
        ("SPEAKER_UNKNOWN", 0) r hmem hpos hall]
    simp only
    rw [if_neg (by simpa using (ne_of_gt hpos))]

/-! ### Path resolution (`resolve_audio_path`) -/

/-- Splitting a path string at `'/'` (Python `str.split("/")` semantics as
used by path normalisation). -/
def splitSlashAux : List Char → List Char → List String
  | [], acc => [String.mk acc.reverse]
  | c :: cs, acc =>
    if c = '/' then String.mk acc.reverse :: splitSlashAux cs []
    else splitSlashAux cs (c :: acc)

def splitSlash (s : String) : List String := splitSlashAux s.data []

/-- POSIX path normalisation on components: drop empty and `.` components,
let `..` pop the previous component (staying at the root when empty). -/
def normComponents (cs : List String) : List String :=
  cs.foldl
    (fun acc c =>
      if c = "" ∨ c = "." then acc
      else if c = ".." then acc.dropLast
      else acc ++ [c])
    []

def joinSlash : List String → String
  | [] => ""
  | [c] => c
  | c :: cs => c ++ "/" ++ joinSlash cs

/-- `os.path.abspath` on an absolute POSIX path string (all inputs in
`resolve_audio_path` are absolute: either the request path itself or
`os.path.join(BASE_DIR, p)`). -/
def abspath (p : String) : String :=
  "/" ++ joinSlash (normComponents (splitSlash p))

/-- Python `str.startswith`. -/
def strStartsWith (s pre : String) : Bool := pre.data.isPrefixOf s.data

/-- The permitted storage root. -/
def BASE_DIR : String := "/var/www/storage/app"

/-- `resolve_audio_path(p)`: reject empty paths (HTTP 400), resolve the path
absolutely (relative paths against `BASE_DIR`), reject resolved paths that do
not start with the resolved `BASE_DIR` string (HTTP 400), reject missing
files (HTTP 404, via the `fileExists` oracle), and return the resolved path
otherwise. -/
def resolve_audio_path (fileExists : String → Bool) (p : String) :
    Except (Nat × String) String :=
  if p = "" then .error (400, "audio_path is required")
  else
    let audio_path := if strStartsWith p "/" then abspath p
      else abspath (BASE_DIR ++ "/" ++ p)
    if ¬ strStartsWith audio_path (abspath BASE_DIR) then .error (400, "Invalid path")
    else if ¬ fileExists audio_path then .error (404, "File not found")
    else .ok audio_path

/-- The path a request string resolves to (absolute paths as such, relative
paths against the storage root). -/
def resolvedPath (p : String) : String :=
  if strStartsWith p "/" then abspath p else abspath (BASE_DIR ++ "/" ++ p)

/-- A resolved path lies under the storage root: it is the root itself or a
path inside the root directory. -/
def underRoot (q : String) : Prop :=
  q = BASE_DIR ∨ strStartsWith q (BASE_DIR ++ "/") = true

instance (q : String) : Decidable (underRoot q) :=
  inferInstanceAs (Decidable (_ ∨ _))

/-- C4 as stated is false: the absolute path `/var/www/storage/appevil`
resolves outside the storage root `/var/www/storage/app` (it is a sibling of
the root, not inside it), yet `resolve_audio_path` accepts it, because the
check is a string-prefix test and `/var/www/storage/app` is a string prefix
of `/var/www/storage/appevil`. -/
theorem C4_prefix_escape_accepted_cex :
    resolve_audio_path (fun _ => true) "/var/www/storage/appevil"
      = .ok "/var/www/storage/appevil" ∧
    ¬ underRoot "/var/www/storage/appevil" := by
  constructor
  · rfl
  · decide

/-- C4 (amended): `resolve_audio_path` rejects a request exactly when the
path is empty, or the resolved path does not carry the root as a *string
prefix*, or the file does not exist. Every path under the root passes the
prefix test (no in-root path is wrongly rejected), but the string-prefix
test is weaker than directory containment, so sibling paths such as
`/var/www/storage/appevil` are accepted although they lie outside the
root. -/
theorem C4_reject_iff_prefix_or_missing :
    (∀ (fileExists : String → Bool) (p : String),
      (resolve_audio_path fileExists p).isOk = false ↔
        (p = "" ∨ strStartsWith (resolvedPath p) (abspath BASE_DIR) = false ∨
          fileExists (resolvedPath p) = false)) ∧
    (∀ q : String, underRoot q → strStartsWith q (abspath BASE_DIR) = true) := by
  constructor
  · intro fileExists p
    by_cases h1 : p = ""
    · simp [resolve_audio_path, h1, Except.isOk, Except.toBool]
    · have hres : resolve_audio_path fileExists p
          = (if ¬ strStartsWith (resolvedPath p) (abspath BASE_DIR) then
              (.error (400, "Invalid path") : Except (Nat × String) String)
            else if ¬ fileExists (resolvedPath p) then .error (404, "File not found")
            else .ok (resolvedPath p)) := by
        simp only [resolve_audio_path, resolvedPath, if_neg h1]
      rw [hres]
      split_ifs with h3 h4 <;> simp_all [Except.isOk, Except.toBool]
  · intro q hq
    have hroot : abspath BASE_DIR = BASE_DIR := by decide
    rw [hroot]
    rcases hq with h | h
    · rw [h]
      unfold strStartsWith
      exact List.isPrefixOf_iff_prefix.2 (List.prefix_refl _)
    · unfold strStartsWith at h ⊢
      rw [List.isPrefixOf_iff_prefix] at h ⊢
      refine List.IsPrefix.trans ?_ h
      rw [String.data_append]
      exact ⟨"/".data, rfl⟩

/-! ### Lazy initialisation of the optional classifiers -/

/-- The module-level state behind `init_gender_model_if_needed`:
`_gender_ok`, `_gender_extractor`, `_gender_model` (handles as `Unit`). -/
structure GenderState where
  gender_ok : Bool
  gender_extractor : Option Unit
  gender_model : Option Unit
deriving DecidableEq, Repr

/-- The module-level state behind `init_emotion_model_if_needed`:
`_emotion_ok`, `_emotion_clf`. -/
structure EmotionState where
  emotion_ok : Bool
  emotion_clf : Option Unit
deriving DecidableEq, Repr

def initialGenderState : GenderState := ⟨false, none, none⟩

def initialEmotionState : EmotionState := ⟨false, none⟩

/-- `init_gender_model_if_needed()`, sequentially (the lock only serialises
callers, so one call is: fast-path check, re-check under the lock, then an
attempted construction whose outcome is the `construct` oracle). Returns the
`(ok, error)` pair, the new module state, and whether the underlying
constructor (`from_pretrained`) was invoked. -/
def init_gender_model_if_needed (enable_gender : Bool)
    (construct : Except String Unit) (s : GenderState) :
    (Bool × Option String) × GenderState × Bool :=
  if ¬ enable_gender then
    ((false, some "disabled"), { s with gender_ok := false }, false)
  else if s.gender_ok && s.gender_extractor.isSome && s.gender_model.isSome then
    ((true, none), s, false)
  else if s.gender_ok && s.gender_extractor.isSome && s.gender_model.isSome then
    -- the double-checked re-read under `_state_lock`
    ((true, none), s, false)
  else
    match construct with
    | .ok h => ((true, none), ⟨true, some h, some h⟩, true)
    | .error e => ((false, some e), ⟨false, none, none⟩, true)

/-- `init_emotion_model_if_needed()`, modelled exactly like the gender
initialiser. -/
def init_emotion_model_if_needed (enable_emotion : Bool)
    (construct : Except String Unit) (s : EmotionState) :
    (Bool × Option String) × EmotionState × Bool :=
  if ¬ enable_emotion then
    ((false, some "disabled"), { s with emotion_ok := false }, false)
  else if s.emotion_ok && s.emotion_clf.isSome then
    ((true, none), s, false)
  else if s.emotion_ok && s.emotion_clf.isSome then
    ((true, none), s, false)
  else
    match construct with
    | .ok h => ((true, none), ⟨true, some h⟩, true)
    | .error e => ((false, some e), ⟨false, none⟩, true)

/-- C1 as stated is false: after an init call observes a construction
failure, the next init call does **not** return the failed result without
construction — it invokes the constructor again (and here succeeds). -/
theorem C1_failed_load_retried_cex :
    (init_gender_model_if_needed true (.error "boom") initialGenderState).1
      = (false, some "boom") ∧
    (init_gender_model_if_needed true (.ok ())
        (init_gender_model_if_needed true (.error "boom") initialGenderState).2.1).2.2
      = true ∧
    (init_gender_model_if_needed true (.ok ())
        (init_gender_model_if_needed true (.error "boom") initialGenderState).2.1).1
      = (true, none) ∧
    (init_emotion_model_if_needed true (.ok ())
        (init_emotion_model_if_needed true (.error "boom") initialEmotionState).2.1).2.2
      = true := by
  refine ⟨rfl, rfl, rfl, rfl⟩

/-- C1 (amended): a construction failure is reported to that caller but is
not cached — the state left behind equals the uninitialised state, so every
later init call re-attempts construction and returns that new attempt's
result. Success, by contrast, is stable: after a successful init, any later
call takes the fast path, returning `(true, none)` without invoking the
constructor and leaving the state unchanged. This holds for both optional
resources (gender and emotion classifiers). -/
theorem C1_failure_not_cached_retry :
    ∀ (e : String) (c : Except String Unit),
      ((init_gender_model_if_needed true (.error e) initialGenderState).2.1
        = initialGenderState) ∧
      ((init_gender_model_if_needed true c
          (init_gender_model_if_needed true (.error e) initialGenderState).2.1).2.2
        = true) ∧
      ((init_gender_model_if_needed true c
          (init_gender_model_if_needed true (.error e) initialGenderState).2.1).1
        = (match c with
           | .ok _ => (true, none)
           | .error e' => (false, some e'))) ∧
      ((init_gender_model_if_needed true c
          (init_gender_model_if_needed true (.ok ()) initialGenderState).2.1)
        = ((true, none),
            (init_gender_model_if_needed true (.ok ()) initialGenderState).2.1,
            false)) ∧
      ((init_emotion_model_if_needed true (.error e) initialEmotionState).2.1
        = initialEmotionState) ∧
      ((init_emotion_model_if_needed true c
          (init_emotion_model_if_needed true (.error e) initialEmotionState).2.1).2.2
        = true) ∧
      ((init_emotion_model_if_needed true c
          (init_emotion_model_if_needed true (.ok ()) initialEmotionState).2.1)
        = ((true, none),
            (init_emotion_model_if_needed true (.ok ()) initialEmotionState).2.1,
            false)) := by
  intro e c
  refine ⟨rfl, ?_, ?_, ?_, rfl, ?_, ?_⟩ <;> rcases c with h | h <;> rfl

/-! ### The `/analyze` handler -/

/-- One transcript segment `{start, end, text}`. -/
structure Seg where
  start : ℚ
  «end» : ℚ
  text : String
deriving DecidableEq, Repr

/-- One per-speaker profile of the response. -/
structure Profile where
  gender : String
  gender_confidence : Option ℚ
  age_group : String
  pitch_median_hz : Option ℚ
  emotion : String
  emotion_confidence : Option ℚ
deriving DecidableEq, Repr

/-- The all-defaults profile used for insufficient evidence and for the
synthetic speaker. -/
def unknownProfile : Profile := ⟨"unknown", none, "unknown", none, "neutral", none⟩

/-- A successful `/analyze` response: language, labeled segments, and the
speakers mapping (as an association list in insertion order). -/
structure Response where
  language : Option String
  segments : List (Seg × String)
  speakers : List (String × Profile)
deriving DecidableEq, Repr

/-- The handler's outcome: an `HTTPException` (status, detail), the
`whisperx_internal_error` payload, or a success response. -/
inductive Outcome where
  | httpError (status : Nat) (detail : String)
  | internalError (message : String)
  | success (resp : Response)
deriving DecidableEq, Repr

/-- Observable resource events of one `/analyze` run, in order. -/
inductive Ev where
  | lockAcquire
  | lockRelease
  | resolveCall
  | whisperAccess
  | diarizeAccess
  | loadAudio
  | genderInit
  | emotionInit
deriving DecidableEq, Repr

/-- The external collaborators of one `/analyze` request: the path
resolution outcome, the transcription and diarization engines, the loaded
audio, the feature flags, and the three classifiers. -/
structure Oracles where
  resolveOutcome : Except (Nat × String) String
  transcribeOutcome : Except String (List Seg × Option String)
  enableDiar : Bool
  diarizeOutcome : Except String (List DiarRow)
  fullAudio : List ℚ
  enableGender : Bool
  enableEmotion : Bool
  genderOutcome : List ℚ → String × Option ℚ
  pitchOutcome : List ℚ → String × Option ℚ
  emotionOutcome : List ℚ → String × Option ℚ

/-- Keys of `by_spk` in Python dict insertion order: first occurrence of
each speaker label. -/
def dictKeys (rows : List DiarRow) : List String :=
  rows.foldl (fun ks r => if r.speaker ∈ ks then ks else ks ++ [r.speaker]) []

theorem dictKeys_go_mem (rows : List DiarRow) :
    ∀ (ks : List String) (x : String),
      x ∈ rows.foldl
          (fun ks r => if r.speaker ∈ ks then ks else ks ++ [r.speaker]) ks ↔
        x ∈ ks ∨ x ∈ rows.map DiarRow.speaker := by
  induction rows with
  | nil => intro ks x; simp
  | cons r rs ih =>
    intro ks x
    simp only [List.foldl_cons, List.map_cons, List.mem_cons]
    rw [ih]
    by_cases h : r.speaker ∈ ks
    · rw [if_pos h]
      constructor
      · rintro (hx | hx)
        · exact Or.inl hx
        · exact Or.inr (Or.inr hx)
      · rintro (hx | hx | hx)
        · exact Or.inl hx
        · exact Or.inl (hx ▸ h)
        · exact Or.inr hx
    · rw [if_neg h]
      simp only [List.mem_append, List.mem_singleton]
      constructor
      · rintro ((hx | hx) | hx)
        · exact Or.inl hx
        · exact Or.inr (Or.inl hx)
        · exact Or.inr (Or.inr hx)
      · rintro (hx | hx | hx)
        · exact Or.inl (Or.inl hx)
        · exact Or.inl (Or.inr hx)
        · exact Or.inr hx

/-- The `by_spk` key set is exactly the set of diarization labels. -/
theorem dictKeys_mem (rows : List DiarRow) (x : String) :
    x ∈ dictKeys rows ↔ x ∈ rows.map DiarRow.speaker := by
  rw [dictKeys, dictKeys_go_mem]
  simp

/-- Step 4 of `analyze`: walk the `by_spk` keys in order; for each speaker,
aggregate its audio (defaults `min_total_sec = 1.2`, `max_total_sec = 25`),
degrade to the all-unknown profile on insufficient evidence, otherwise
classify (gender and emotion only when enabled). The events record which
classifier initialisations are reached. -/
def buildProfiles (o : Oracles) (diar_rows : List DiarRow) :
    List String → Except String (List (String × Profile) × List Ev)
  | [] => .ok ([], [])
  | spk :: ks =>
    let rows := (diar_rows.filter (fun r => r.speaker == spk)).map
      (fun r => (⟨r.start, r.«end»⟩ : Iv))
    match concat_speaker_audio o.fullAudio 16000 rows (6/5) 25 with
    | .error e => .error e
    | .ok none =>
      match buildProfiles o diar_rows ks with
      | .error e => .error e
      | .ok (ps, evs) => .ok ((spk, unknownProfile) :: ps, evs)
    | .ok (some y_spk) =>
      let g := if o.enableGender then o.genderOutcome y_spk else ("unknown", none)
      let ap := o.pitchOutcome y_spk
      let em := if o.enableEmotion then o.emotionOutcome y_spk else ("neutral", none)
      let evs1 := (if o.enableGender then [Ev.genderInit] else [])
        ++ (if o.enableEmotion then [Ev.emotionInit] else [])
      match buildProfiles o diar_rows ks with
      | .error e => .error e
      | .ok (ps, evs) =>
        .ok ((spk, ⟨g.1, g.2, ap.1, ap.2, em.1, em.2⟩) :: ps, evs1 ++ evs)

/-- The `/analyze` handler: the whole body runs inside `_analyze_lock`;
`HTTPException`s from `resolve_audio_path` re-raise past the handler, any
other failure becomes the `whisperx_internal_error` payload, and the lock is
released on every exit. Returns the ordered resource events and the
outcome. -/
def analyze (o : Oracles) : List Ev × Outcome :=
  match o.resolveOutcome with
  | .error (st, detail) =>
    ([.lockAcquire, .resolveCall, .lockRelease], .httpError st detail)
  | .ok _audio_path =>
    match o.transcribeOutcome with
    | .error e =>
      ([.lockAcquire, .resolveCall, .whisperAccess, .lockRelease], .internalError e)
    | .ok (segments, language) =>
      match (if o.enableDiar then (o.diarizeOutcome.map fun rs => (rs, [Ev.diarizeAccess]))
             else .ok ([], [])) with
      | .error e =>
        ([.lockAcquire, .resolveCall, .whisperAccess, .diarizeAccess, .lockRelease],
          .internalError e)
      | .ok (diar_rows, diarEvs) =>
        let final_segments :=
          if diar_rows.isEmpty then segments.map (fun s => (s, "SPEAKER_0"))
          else segments.map (fun s => (s, assignSpeaker s.start s.«end» diar_rows))
        if diar_rows.isEmpty then
          ([Ev.lockAcquire, Ev.resolveCall, Ev.whisperAccess] ++ diarEvs
              ++ [Ev.lockRelease],
            .success ⟨language, final_segments, [("SPEAKER_0", unknownProfile)]⟩)
        else
          match buildProfiles o diar_rows (dictKeys diar_rows) with
          | .error e =>
            ([Ev.lockAcquire, Ev.resolveCall, Ev.whisperAccess] ++ diarEvs
                ++ [Ev.loadAudio, Ev.lockRelease],
              .internalError e)
          | .ok (speakers, clsEvs) =>
            ([Ev.lockAcquire, Ev.resolveCall, Ev.whisperAccess] ++ diarEvs
                ++ [Ev.loadAudio] ++ clsEvs ++ [Ev.lockRelease],
              .success ⟨language, final_segments, speakers⟩)

/-- The diarization rows a request sees: empty when diarization is disabled,
the diarization engine's rows otherwise. -/
def oracleRows (o : Oracles) : List DiarRow :=
  if o.enableDiar then
    match o.diarizeOutcome with
    | .ok rs => rs
    | .error _ => []
  else []

/-- Every successful profile walk yields exactly one entry per key, in
order. -/
theorem buildProfiles_keys (o : Oracles) (diar_rows : List DiarRow) :
    ∀ (ks : List String) (ps : List (String × Profile)) (evs : List Ev),
      buildProfiles o diar_rows ks = .ok (ps, evs) → ps.map Prod.fst = ks := by
  intro ks
  induction ks with
  | nil =>
    intro ps evs h
    simp only [buildProfiles, Except.ok.injEq, Prod.mk.injEq] at h
    rw [← h.1]
    rfl
  | cons spk ks ih =>
    intro ps evs h
    simp only [buildProfiles] at h
    split at h
    · exact absurd h (by simp)
    · split at h
      · exact absurd h (by simp)
      · next ps' evs' hb =>
        simp only [Except.ok.injEq, Prod.mk.injEq] at h
        rw [← h.1, List.map_cons, ih ps' evs' hb]
    · split at h
      · exact absurd h (by simp)
      · next ps' evs' hb =>
        simp only [Except.ok.injEq, Prod.mk.injEq] at h
        rw [← h.1, List.map_cons, ih ps' evs' hb]

/-! ### Claims about the handler's orchestration -/

/-- C3 as stated is false: an input-error request (here: missing file, HTTP
404) is rejected only after the analysis gate has been acquired —
`resolve_audio_path` runs inside `with _analyze_lock:` — so the event trace
of the rejected request contains `lockAcquire`. No model is touched. -/
theorem C3_lock_taken_on_input_error_cex :
    (analyze ⟨.error (404, "File not found"), .ok ([], none), false, .ok [], [],
        false, false, (fun _ => ("unknown", none)), (fun _ => ("unknown", none)),
        (fun _ => ("neutral", none))⟩).1
      = [Ev.lockAcquire, Ev.resolveCall, Ev.lockRelease] ∧
    Ev.lockAcquire ∈ (analyze ⟨.error (404, "File not found"), .ok ([], none),
        false, .ok [], [], false, false, (fun _ => ("unknown", none)),
        (fun _ => ("unknown", none)), (fun _ => ("neutral", none))⟩).1 ∧
    (analyze ⟨.error (404, "File not found"), .ok ([], none), false, .ok [], [],
        false, false, (fun _ => ("unknown", none)), (fun _ => ("unknown", none)),
        (fun _ => ("neutral", none))⟩).2 = .httpError 404 "File not found" := by
  refine ⟨rfl, ?_, rfl⟩
  exact List.mem_cons_self _ _

/-- C3 (amended): a request whose path resolution fails is rejected before
any resource is touched — the trace holds no whisper, diarization, audio
load or classifier event — but the rejection happens *inside* the
orchestration gate: the handler acquires `_analyze_lock` first, then
validates the input, and releases the lock on the raised `HTTPException`. -/
theorem C3_reject_inside_gate_no_model_access :
    ∀ (st : Nat) (msg : String) (t : Except String (List Seg × Option String))
      (ed : Bool) (dz : Except String (List DiarRow)) (fa : List ℚ)
      (eg ee : Bool) (g pe em : List ℚ → String × Option ℚ),
      analyze ⟨.error (st, msg), t, ed, dz, fa, eg, ee, g, pe, em⟩
        = ([Ev.lockAcquire, Ev.resolveCall, Ev.lockRelease], .httpError st msg) := by
  intro st msg t ed dz fa eg ee g pe em
  rfl

/-- C8: in every successful response the key set of the speakers mapping is
exactly the set of distinct diarization labels (the single synthetic label
`"SPEAKER_0"` when diarization is disabled or produced no rows), and every
output segment's speaker is one of those keys or the synthetic fallback
label `"SPEAKER_UNKNOWN"`. -/
theorem C8_speakers_keys_exact (o : Oracles) (resp : Response)
    (h : (analyze o).2 = .success resp) :
    (∀ k, k ∈ resp.speakers.map Prod.fst ↔
      (if oracleRows o = [] then k = "SPEAKER_0"
       else k ∈ (oracleRows o).map DiarRow.speaker)) ∧
    (∀ p ∈ resp.segments,
      p.2 ∈ resp.speakers.map Prod.fst ∨ p.2 = "SPEAKER_UNKNOWN") := by
  simp only [analyze] at h
  split at h
  · simp at h
  · split at h
    · simp at h
    · next segments language heq2 =>
      split at h
      · simp at h
      · next diar_rows diarEvs heq3 =>
        have hrows : oracleRows o = diar_rows := by
          unfold oracleRows
          by_cases hed : o.enableDiar
          · rw [if_pos hed] at heq3 ⊢
            rcases hdz : o.diarizeOutcome with e | rs
            · rw [hdz] at heq3
              exact absurd heq3 (by simp [Except.map])
            · rw [hdz] at heq3
              simp only [Except.map, Except.ok.injEq, Prod.mk.injEq] at heq3
              exact heq3.1
          · rw [if_neg hed] at heq3 ⊢
            simp only [Except.ok.injEq, Prod.mk.injEq] at heq3
            exact heq3.1
        split at h
        · next hempty =>
          simp only [Prod.snd, Outcome.success.injEq] at h
          subst h
          have hnil : diar_rows = [] := List.isEmpty_iff.1 hempty
          rw [hrows, hnil]
          constructor
          · intro k
            simp
          · intro p hp
            rcases List.mem_map.1 hp with ⟨s, -, rfl⟩
            left
            simp
        · next hempty =>
          split at h
          · simp at h
          · next speakers clsEvs hbp =>
            simp only [Prod.snd, Outcome.success.injEq] at h
            subst h
            have hnil : ¬ diar_rows = [] := by
              intro hc
              rw [hc] at hempty
              exact hempty rfl
            have hkeys : speakers.map Prod.fst = dictKeys diar_rows :=
              buildProfiles_keys o diar_rows (dictKeys diar_rows) speakers clsEvs hbp
            simp only [hrows, if_neg hnil]
            constructor
            · intro k
              rw [hkeys]
              exact dictKeys_mem diar_rows k
            · intro p hp
              rcases List.mem_map.1 hp with ⟨s, -, rfl⟩
              rcases assignSpeaker_mem s.start s.«end» diar_rows with hm | hm
              · left
                rw [hkeys, dictKeys_mem]
                exact hm
              · right
                exact hm

/-- The witness oracle for C8: diarization disabled, one transcript
segment. -/
def oracleW8 : Oracles :=
  ⟨.ok "p", .ok ([⟨0, 1, "hi"⟩], some "en"), false, .ok [], [], false, false,
    (fun _ => ("unknown", none)), (fun _ => ("unknown", none)),
    (fun _ => ("neutral", none))⟩

/-- The response the witness oracle produces. -/
def respW8 : Response :=
  ⟨some "en", [(⟨0, 1, "hi"⟩, "SPEAKER_0")], [("SPEAKER_0", unknownProfile)]⟩

/-- Witness for C8: the key-set and label invariants evaluated on a concrete
successful run with diarization disabled. -/
theorem C8_speakers_keys_exact_witness :
    (∀ k, k ∈ respW8.speakers.map Prod.fst ↔
      (if oracleRows oracleW8 = [] then k = "SPEAKER_0"
       else k ∈ (oracleRows oracleW8).map DiarRow.speaker)) ∧
    (∀ p ∈ respW8.segments,
      p.2 ∈ respW8.speakers.map Prod.fst ∨ p.2 = "SPEAKER_UNKNOWN") :=
  C8_speakers_keys_exact oracleW8 respW8 rfl

end WhisperX
